import Mathlib

/-!
Verification development for the textBot-ocr repository.

The algorithmic core of the repository is `OCRService.organizeTextByLines`
together with the result shaping of `OCRService.detectText` (both in the
OCR service module).  Coordinates are image-pixel numbers; the JavaScript
code performs only integer-valued operations on them (comparison,
subtraction, `Math.abs`, `Math.min`, `Math.max`), so they are embedded as
`Int`.  Confidence scores are carried through but never computed with, so
their numeric type is likewise embedded as `Int`.

Missing data is embedded with `Option`:
`a.boundingBox?.vertices?.[0]?.y || 0` becomes an `Option`-chain followed by
`jsor` (JavaScript `||` on numbers: `none` and `0` are falsy).
-/

namespace OCR

/-- One vertex of a bounding polygon; either coordinate may be absent. -/
structure Vertex where
  x : Option Int
  y : Option Int
deriving DecidableEq, Repr

/-- A word annotation as consumed by `organizeTextByLines`
(the shape produced at `detectText`'s `textDetails`):
`{ text, confidence, boundingBox }`.  A missing `boundingBox` and a
`boundingBox` whose `vertices` array is missing are observationally
identical through the optional-chaining accesses, so both are `none`. -/
structure Word where
  text : String
  confidence : Option Int
  boundingBox : Option (List Vertex)
deriving DecidableEq, Repr

/-- JavaScript `v || d` for numeric `v`: `undefined`, `null` and `0` are
falsy and yield the default. -/
def jsor : Option Int → Int → Int
  | some v, d => if v = 0 then d else v
  | none, d => d

/-- `w.boundingBox?.vertices?.[i]` -/
def vertexAt (w : Word) (i : Nat) : Option Vertex :=
  w.boundingBox.bind fun vs => vs[i]?

/-- `text.boundingBox?.vertices?.[0]?.y || 0` -/
def wordY (w : Word) : Int := jsor ((vertexAt w 0).bind Vertex.y) 0

/-- `text.boundingBox?.vertices?.[0]?.x || 0` -/
def wordX (w : Word) : Int := jsor ((vertexAt w 0).bind Vertex.x) 0

/-- `text.boundingBox?.vertices?.[1]?.x || textX` (used for a line's maxX). -/
def wordMaxX (w : Word) : Int := jsor ((vertexAt w 1).bind Vertex.x) (wordX w)

/-- `text.boundingBox?.vertices?.[2]?.y || textY` (used for a line's maxY). -/
def wordMaxY (w : Word) : Int := jsor ((vertexAt w 2).bind Vertex.y) (wordY w)

/-- The `boundingBox` object built for a line:
`{ minX, maxX, minY, maxY }`. -/
structure LineBBox where
  minX : Int
  maxX : Int
  minY : Int
  maxY : Int
deriving DecidableEq, Repr

/-- The mutable line object built during the grouping loop
(`currentLine` in the source). -/
structure LineAcc where
  lineNumber : Nat
  averageY : Int
  words : List Word
  text : String
  boundingBox : LineBBox
deriving DecidableEq, Repr

/-- `lineThreshold = 20` — the fixed line-grouping distance in pixels. -/
def lineThreshold : Nat := 20

/-- The line object created when a word opens a new line:
anchor `averageY` is the word's y and the bounding box is collapsed to the
word's top-left corner. -/
def newLine (n : Nat) (w : Word) : LineAcc :=
  { lineNumber := n
    averageY := wordY w
    words := [w]
    text := w.text
    boundingBox := ⟨wordX w, wordX w, wordY w, wordY w⟩ }

/-- Appending a word to the current line (the `else` branch of the loop):
push the word, extend the text, and update the bounding box with the word's
top-left corner and, where available, its top-right x / bottom-right y. -/
def addWord (acc : LineAcc) (w : Word) : LineAcc :=
  { acc with
    words := acc.words ++ [w]
    text := acc.text ++ " " ++ w.text
    boundingBox :=
      ⟨min acc.boundingBox.minX (wordX w),
       max acc.boundingBox.maxX (wordMaxX w),
       min acc.boundingBox.minY (wordY w),
       max acc.boundingBox.maxY (wordMaxY w)⟩ }

/-- One iteration of the grouping loop.  The JavaScript state is the array
`lines` plus the alias `currentLine` to its last pushed element (or `null`
before the first word); it is embedded as the pair
(closed lines, current line), with `lines = done ++ cur.toList`.
`lineNumber` is `lines.length + 1` at creation time. -/
def buildStep : List LineAcc × Option LineAcc → Word → List LineAcc × Option LineAcc
  | (done, none), w => (done, some (newLine (done.length + 1) w))
  | (done, some cur), w =>
    if lineThreshold < (wordY w - cur.averageY).natAbs then
      (done ++ [cur], some (newLine ((done ++ [cur]).length + 1) w))
    else
      (done, some (addWord cur w))

/-- The sort of step 1: `textDetails.slice().sort((a, b) => aY - bY)`.
JavaScript's sort is stable and this comparator orders ascending by top-left
y, so it is embedded as a stable insertion sort by `wordY`. -/
def sortByY (ws : List Word) : List Word :=
  List.insertionSort (fun a b => wordY a ≤ wordY b) ws

/-- The grouping loop over the y-sorted words, returning the created line
objects in creation order. -/
def buildLines (ws : List Word) : List LineAcc :=
  let st := ws.foldl buildStep ([], none)
  st.1 ++ st.2.toList

/-- `position` of a word in the final projection. -/
structure Position where
  x : Int
  y : Int
deriving DecidableEq, Repr

/-- The projected word object in the returned lines:
`{ text, confidence, position }`. -/
structure OutWord where
  text : String
  confidence : Option Int
  position : Position
deriving DecidableEq, Repr

/-- The returned line object:
`{ lineNumber, text, wordCount, words, boundingBox }`. -/
structure Line where
  lineNumber : Nat
  text : String
  wordCount : Nat
  words : List OutWord
  boundingBox : LineBBox
deriving DecidableEq, Repr

/-- The final projection of a word:
`{ text: w.text, confidence: w.confidence, position: { x, y } }`.
Note that `confidence` is passed through unchanged. -/
def outWordOf (w : Word) : OutWord :=
  ⟨w.text, w.confidence, ⟨wordX w, wordY w⟩⟩

/-- The in-line sort of step 3: `line.words.sort((a, b) => aX - bX)`
(stable, ascending by top-left x). -/
def sortByX (ws : List Word) : List Word :=
  List.insertionSort (fun a b => wordX a ≤ wordX b) ws

/-- Steps 3 and 4 applied to one grouped line: sort the member words by x,
rebuild `text` by joining their texts with single spaces, and project.
The bounding box is the one accumulated during grouping. -/
def finishLine (acc : LineAcc) : Line :=
  let ws := sortByX acc.words
  { lineNumber := acc.lineNumber
    text := String.intercalate " " (ws.map Word.text)
    wordCount := ws.length
    words := ws.map outWordOf
    boundingBox := acc.boundingBox }

/-- `OCRService.organizeTextByLines` on a present (non-null) array. -/
def organizeTextByLines (textDetails : List Word) : List Line :=
  if textDetails.length = 0 then []
  else (buildLines (sortByY textDetails)).map finishLine

/-- `OCRService.organizeTextByLines` including the `!textDetails` null
guard. -/
def organizeTextByLinesOpt : Option (List Word) → List Line
  | none => []
  | some ts => organizeTextByLines ts

/-- `organizeTextByLines` with the caller's array threaded as explicit
state.  The source reads the argument only through `textDetails.slice()`,
which copies the array before the sort; the body assigns to no element of
`textDetails` and mutates no word object (it only mutates the freshly
created line objects and their own `words` arrays), so the caller's array
after the call is the unchanged input. -/
def organizeTextByLinesFr (textDetails : List Word) : List Line × List Word :=
  (organizeTextByLines textDetails, textDetails)

/-- A raw provider token annotation as read by `detectText`:
`description`, optional `score`, optional `boundingPoly`. -/
structure Annotation where
  description : String
  score : Option Int
  boundingPoly : Option (List Vertex)
deriving DecidableEq, Repr

/-- The normalization in `detectText`:
`{ text: t.description, confidence: t.score || 0, boundingBox: t.boundingPoly }`. -/
def annToWord (a : Annotation) : Word :=
  ⟨a.description, some (jsor a.score 0), a.boundingPoly⟩

/-- The result of `detectText` restricted to the fields set on the paths
modeled here.  `lines` is `Option`-valued because the no-text branch does
not set the field at all.  The `wordCount` and `metadata` fields (display
data, including a wall-clock timestamp) are not modeled. -/
structure DetectResult where
  success : Bool
  message : String
  text : String
  details : List Word
  lines : Option (List Line)
deriving DecidableEq, Repr

/-- `detectText` from the point where the provider's `textAnnotations` are
in hand (the provider call, credential wiring and mock mode are I/O around
this core).  `none` models a missing `textAnnotations` field; the guard is
`!detections || detections.length === 0`. -/
def detectTextCore : Option (List Annotation) → DetectResult
  | none => ⟨false, "ไม่พบข้อความในรูปภาพ", "", [], none⟩
  | some [] => ⟨false, "ไม่พบข้อความในรูปภาพ", "", [], none⟩
  | some (d0 :: rest) =>
    let fullText := d0.description
    let textDetails := rest.map annToWord
    let organizedByLines := organizeTextByLines textDetails
    ⟨true, "อ่านข้อความจากรูปภาพสำเร็จ", fullText.trim, textDetails,
      some organizedByLines⟩

/-- The bounding box the code actually accumulates for a line whose words
in insertion order are `w :: ws`: minima range over all words' top-left
coordinates, but the maxima start from the opening word's TOP-LEFT corner
(`newLine` collapses the box to it) and only the later words contribute
their top-right x / bottom-right y. -/
def codeLineBBox (w : Word) (ws : List Word) : LineBBox :=
  ⟨ws.foldl (fun m u => min m (wordX u)) (wordX w),
   ws.foldl (fun m u => max m (wordMaxX u)) (wordX w),
   ws.foldl (fun m u => min m (wordY u)) (wordY w),
   ws.foldl (fun m u => max m (wordMaxY u)) (wordY w)⟩

/-- Modelled from the spec: the bounding box described by the
specification text — "the coordinate-wise min/max over all member words'
corners (using top-left and, where available, the opposite corner)" —
in which the opening word also contributes its opposite corner. -/
def specLineBBox (w : Word) (ws : List Word) : LineBBox :=
  ⟨ws.foldl (fun m u => min m (wordX u)) (wordX w),
   ws.foldl (fun m u => max m (wordMaxX u)) (wordMaxX w),
   ws.foldl (fun m u => min m (wordY u)) (wordY w),
   ws.foldl (fun m u => max m (wordMaxY u)) (wordMaxY w)⟩

/-- Well-formedness of a line object reached by the grouping loop: its
words (in insertion order) are nonempty, its anchor `averageY` is the
top-left y of the word that OPENED it, its bounding box is the accumulated
`codeLineBBox`, and every member word's top-left y is within the threshold
of the anchor. -/
def AccWf (acc : LineAcc) : Prop :=
  ∃ w ws, acc.words = w :: ws ∧ acc.averageY = wordY w ∧
    acc.boundingBox = codeLineBBox w ws ∧
    ∀ u ∈ acc.words, (wordY u - acc.averageY).natAbs ≤ lineThreshold

/-- The word that opened line `b` was farther than the threshold from line
`a`'s anchor (the reason `a` was closed). -/
def Far (a b : LineAcc) : Prop :=
  ∀ w ws, b.words = w :: ws → lineThreshold < (wordY w - a.averageY).natAbs

/-- The full `lines` array of a loop state. -/
def linesOf (st : List LineAcc × Option LineAcc) : List LineAcc :=
  st.1 ++ st.2.toList

/-- All words of a list of line objects, in line order. -/
def flatWords (ls : List LineAcc) : List Word :=
  (ls.map LineAcc.words).flatten

/-- Loop invariant of the grouping loop. -/
def StInv (st : List LineAcc × Option LineAcc) : Prop :=
  (∀ a ∈ linesOf st, AccWf a) ∧ (linesOf st).Chain' Far ∧
    (linesOf st).map LineAcc.lineNumber = List.range' 1 (linesOf st).length ∧
    (st.2 = none → st.1 = [])

theorem buildStep_none (done : List LineAcc) (w : Word) :
    buildStep (done, none) w = (done, some (newLine (done.length + 1) w)) := rfl

theorem buildStep_far (done : List LineAcc) (cur : LineAcc) (w : Word)
    (h : lineThreshold < (wordY w - cur.averageY).natAbs) :
    buildStep (done, some cur) w =
      (done ++ [cur], some (newLine ((done ++ [cur]).length + 1) w)) := by
  simp [buildStep, h]

theorem buildStep_near (done : List LineAcc) (cur : LineAcc) (w : Word)
    (h : ¬ lineThreshold < (wordY w - cur.averageY).natAbs) :
    buildStep (done, some cur) w = (done, some (addWord cur w)) := by
  simp [buildStep, h]

theorem accWf_newLine (n : Nat) (w : Word) : AccWf (newLine n w) := by
  refine ⟨w, [], rfl, rfl, rfl, ?_⟩
  intro u hu
  simp only [newLine, List.mem_singleton] at hu
  subst hu
  simp [newLine, lineThreshold]

theorem accWf_addWord (cur : LineAcc) (w : Word) (hcur : AccWf cur)
    (h : ¬ lineThreshold < (wordY w - cur.averageY).natAbs) :
    AccWf (addWord cur w) := by
  obtain ⟨w0, ws0, hw0, hy0, hbb0, hall0⟩ := hcur
  refine ⟨w0, ws0 ++ [w], ?_, hy0, ?_, ?_⟩
  · simp [addWord, hw0]
  · simp only [addWord, hbb0, codeLineBBox, List.foldl_append, List.foldl_cons,
      List.foldl_nil]
  · intro u hu
    simp only [addWord, List.mem_append, List.mem_singleton] at hu
    rcases hu with hu | hu
    · simpa [addWord] using hall0 u hu
    · subst hu
      simpa [addWord] using Nat.not_lt.mp h

theorem stInv_buildStep (st : List LineAcc × Option LineAcc) (w : Word)
    (h : StInv st) :
    StInv (buildStep st w) ∧
      flatWords (linesOf (buildStep st w)) = flatWords (linesOf st) ++ [w] := by
  obtain ⟨done, cur⟩ := st
  obtain ⟨hwf, hchain, hnum, hemp⟩ := h
  cases cur with
  | none =>
    have hd : done = [] := hemp rfl
    subst hd
    rw [buildStep_none]
    refine ⟨⟨?_, ?_, ?_, ?_⟩, ?_⟩
    · intro a ha
      simp only [linesOf, Option.toList_some, List.nil_append, List.mem_singleton] at ha
      subst ha
      exact accWf_newLine _ _
    · simp [linesOf]
    · simp [linesOf, newLine, List.range']
    · intro hc
      simp at hc
    · simp [linesOf, flatWords, newLine]
  | some cur =>
    have hcur : AccWf cur := hwf cur (by simp [linesOf])
    have hlin : linesOf (done, some cur) = done ++ [cur] := rfl
    by_cases hfar : lineThreshold < (wordY w - cur.averageY).natAbs
    · rw [buildStep_far done cur w hfar]
      refine ⟨⟨?_, ?_, ?_, ?_⟩, ?_⟩
      · intro a ha
        simp only [linesOf, Option.toList_some, List.mem_append, List.mem_singleton] at ha
        rcases ha with ha | ha
        · exact hwf a (by simpa [linesOf] using ha)
        · subst ha
          exact accWf_newLine _ _
      · show List.Chain' Far ((done ++ [cur]) ++ [newLine _ w])
        rw [List.chain'_append]
        refine ⟨by simpa [linesOf] using hchain, List.chain'_singleton _, ?_⟩
        intro x hx y hy
        rw [List.getLast?_concat] at hx
        simp only [List.head?_cons, Option.mem_def, Option.some.injEq] at hx hy
        subst hx
        subst hy
        intro w' ws' heq
        simp only [newLine, List.cons.injEq] at heq
        rw [← heq.1]
        exact hfar
      · show ((done ++ [cur]) ++ [newLine ((done ++ [cur]).length + 1) w]).map
            LineAcc.lineNumber =
          List.range' 1 ((done ++ [cur]) ++ [newLine ((done ++ [cur]).length + 1) w]).length
        have hlen : ((done ++ [cur]) ++ [newLine ((done ++ [cur]).length + 1) w]).length
            = (done ++ [cur]).length + 1 := by simp
        rw [hlen, List.range'_1_concat, List.map_append]
        rw [hlin] at hnum
        rw [hnum]
        simp [newLine, Nat.add_comm]
      · intro hc
        simp at hc
      · simp [linesOf, flatWords, newLine, List.append_assoc]
    · rw [buildStep_near done cur w hfar]
      refine ⟨⟨?_, ?_, ?_, ?_⟩, ?_⟩
      · intro a ha
        simp only [linesOf, Option.toList_some, List.mem_append, List.mem_singleton] at ha
        rcases ha with ha | ha
        · exact hwf a (by simp [linesOf, ha])
        · subst ha
          exact accWf_addWord cur w hcur hfar
      · show List.Chain' Far (done ++ [addWord cur w])
        rw [hlin, List.chain'_append] at hchain
        obtain ⟨c1, _, crel⟩ := hchain
        rw [List.chain'_append]
        refine ⟨c1, List.chain'_singleton _, ?_⟩
        intro x hx y hy
        simp only [List.head?_cons, Option.mem_def, Option.some.injEq] at hy
        subst hy
        obtain ⟨w0, ws0, hw0, _, _, _⟩ := hcur
        intro w' ws' heq
        have hwords : (addWord cur w).words = w0 :: (ws0 ++ [w]) := by
          simp [addWord, hw0]
        rw [hwords] at heq
        have hw' : w' = w0 := (List.cons.injEq _ _ _ _).mp heq |>.1 |>.symm
        subst hw'
        have := crel x hx cur (by simp)
        exact this w' ws0 hw0
      · show (done ++ [addWord cur w]).map LineAcc.lineNumber =
          List.range' 1 (done ++ [addWord cur w]).length
        rw [hlin] at hnum
        have hln : (addWord cur w).lineNumber = cur.lineNumber := rfl
        simpa [hln] using hnum
      · intro hc
        simp at hc
      · simp [linesOf, flatWords, addWord, List.append_assoc]

theorem stInv_foldl (ws : List Word) (st : List LineAcc × Option LineAcc)
    (h : StInv st) :
    StInv (ws.foldl buildStep st) ∧
      flatWords (linesOf (ws.foldl buildStep st)) = flatWords (linesOf st) ++ ws := by
  induction ws generalizing st with
  | nil => simpa using h
  | cons w ws ih =>
    obtain ⟨h1, h2⟩ := stInv_buildStep st w h
    obtain ⟨ha, hb⟩ := ih (buildStep st w) h1
    rw [List.foldl_cons]
    refine ⟨ha, ?_⟩
    rw [hb, h2, List.append_assoc]
    rfl

theorem buildLines_inv (ws : List Word) :
    (∀ a ∈ buildLines ws, AccWf a) ∧ (buildLines ws).Chain' Far ∧
      (buildLines ws).map LineAcc.lineNumber = List.range' 1 (buildLines ws).length ∧
      flatWords (buildLines ws) = ws := by
  have h0 : StInv ([], none) :=
    ⟨by simp [linesOf], by simp [linesOf], by simp [linesOf, List.range'],
     fun _ => rfl⟩
  obtain ⟨⟨hwf, hch, hnum, _⟩, hflat⟩ := stInv_foldl ws ([], none) h0
  have hb : buildLines ws = linesOf (ws.foldl buildStep ([], none)) := rfl
  rw [hb]
  refine ⟨hwf, hch, hnum, ?_⟩
  simpa [linesOf, flatWords] using hflat

theorem organizeTextByLines_eq_map (l : List Word) :
    organizeTextByLines l = (buildLines (sortByY l)).map finishLine := by
  cases l with
  | nil => rfl
  | cons a l => rfl

theorem sortByY_perm (l : List Word) : (sortByY l).Perm l :=
  List.perm_insertionSort _ l

theorem sortByY_sorted (l : List Word) :
    (sortByY l).Sorted fun a b => wordY a ≤ wordY b := by
  haveI : IsTotal Word fun a b => wordY a ≤ wordY b := ⟨fun a b => Int.le_total _ _⟩
  haveI : IsTrans Word fun a b => wordY a ≤ wordY b :=
    ⟨fun _ _ _ hab hbc => le_trans hab hbc⟩
  exact List.sorted_insertionSort _ l

theorem sortByX_perm (l : List Word) : (sortByX l).Perm l :=
  List.perm_insertionSort _ l

theorem sortByX_sorted (l : List Word) :
    (sortByX l).Sorted fun a b => wordX a ≤ wordX b := by
  haveI : IsTotal Word fun a b => wordX a ≤ wordX b := ⟨fun a b => Int.le_total _ _⟩
  haveI : IsTrans Word fun a b => wordX a ≤ wordX b :=
    ⟨fun _ _ _ hab hbc => le_trans hab hbc⟩
  exact List.sorted_insertionSort _ l

/-- C1: `organizeTextByLines` first sorts the words ascending by top-left y
(a permutation of the input, sorted by `wordY`), then walks them in that
order: the grouped lines' word lists concatenate back to exactly the sorted
list; every line is opened by its first word and its anchor `averageY`
stays pinned to that word's top-left y (never recomputed); every word in a
line has top-left y within the 20-unit threshold of the pinned anchor; and
the word that opens each subsequent line is more than the threshold away
from the previous line's anchor. -/
theorem organizeTextByLines_grouping (l : List Word) :
    organizeTextByLines l = (buildLines (sortByY l)).map finishLine ∧
    (sortByY l).Perm l ∧
    ((sortByY l).Sorted fun a b => wordY a ≤ wordY b) ∧
    flatWords (buildLines (sortByY l)) = sortByY l ∧
    (∀ acc ∈ buildLines (sortByY l), ∃ w ws, acc.words = w :: ws ∧
      acc.averageY = wordY w ∧
      ∀ u ∈ acc.words, (wordY u - acc.averageY).natAbs ≤ lineThreshold) ∧
    (buildLines (sortByY l)).Chain' Far := by
  obtain ⟨hwf, hch, _, hflat⟩ := buildLines_inv (sortByY l)
  refine ⟨organizeTextByLines_eq_map l, sortByY_perm l, sortByY_sorted l, hflat,
    ?_, hch⟩
  intro acc hacc
  obtain ⟨w, ws, h1, h2, _, h4⟩ := hwf acc hacc
  exact ⟨w, ws, h1, h2, h4⟩

/-- Witness for C1 at a concrete two-word input whose first grouped line is
the line object `⟨1, 5, ["X"-word], "X", ⟨3, 3, 5, 5⟩⟩`. -/
theorem organizeTextByLines_grouping_witness :
    ∃ w ws,
      (⟨1, 5, [⟨"X", none, some [⟨some 3, some 5⟩]⟩], "X", ⟨3, 3, 5, 5⟩⟩
          : LineAcc).words = w :: ws ∧
      (⟨1, 5, [⟨"X", none, some [⟨some 3, some 5⟩]⟩], "X", ⟨3, 3, 5, 5⟩⟩
          : LineAcc).averageY = wordY w ∧
      ∀ u ∈ (⟨1, 5, [⟨"X", none, some [⟨some 3, some 5⟩]⟩], "X", ⟨3, 3, 5, 5⟩⟩
          : LineAcc).words,
        (wordY u - (⟨1, 5, [⟨"X", none, some [⟨some 3, some 5⟩]⟩], "X",
            ⟨3, 3, 5, 5⟩⟩ : LineAcc).averageY).natAbs ≤ lineThreshold :=
  (organizeTextByLines_grouping
      [⟨"X", none, some [⟨some 3, some 5⟩]⟩,
       ⟨"Y", none, some [⟨some 1, some 40⟩]⟩]).2.2.2.2.1
    ⟨1, 5, [⟨"X", none, some [⟨some 3, some 5⟩]⟩], "X", ⟨3, 3, 5, 5⟩⟩ (by decide)

/-- C5 counterexample: on zero token annotations `detectText` does return a
normal `success = false` result with empty text and empty details, but its
`lines` field is absent (`none`), not the empty list the claim states. -/
theorem detectText_noText_counterexample :
    (detectTextCore (some [])).success = false ∧
    (detectTextCore (some [])).text = "" ∧
    (detectTextCore (some [])).details = [] ∧
    (detectTextCore (some [])).lines = none ∧
    (detectTextCore (some [])).lines ≠ some [] := by decide

/-- C5 amended: when the provider returns zero token annotations (or no
`textAnnotations` field at all), `detectText` returns the fixed no-text
result: `success = false`, empty text, empty details, and NO `lines` field
(the field is left undefined rather than set to an empty list). -/
theorem detectText_noText :
    detectTextCore none = ⟨false, "ไม่พบข้อความในรูปภาพ", "", [], none⟩ ∧
    detectTextCore (some []) = ⟨false, "ไม่พบข้อความในรูปภาพ", "", [], none⟩ :=
  ⟨rfl, rfl⟩

/-- C6 counterexample: for a single word with no bounding box and no
confidence, `organizeTextByLines` outputs that word with confidence still
absent (`none`), not defaulted to `0` as the claim states. -/
theorem organizeTextByLines_confidence_counterexample :
    ((organizeTextByLines [⟨"A", none, none⟩]).map Line.words).flatten.map
        OutWord.confidence = [none] ∧
    ([none] : List (Option Int)) ≠ [some 0] := by decide

/-- C6 amended: `organizeTextByLines` totally handles every input shape —
a null list yields `[]`, every missing coordinate (absent bounding box,
empty or short vertex array, absent x/y field) is read as 0, a missing
opposite corner falls back to the top-left coordinate, and a single word
with no bounding box yields exactly one line containing that word with an
all-zero bounding box; however a missing confidence is passed through
unchanged (it is the normalizer inside `detectText` that defaults a missing
score to 0, not `organizeTextByLines`). -/
theorem organizeTextByLines_defensive (t : String) (c : Option Int) :
    organizeTextByLinesOpt none = [] ∧
    organizeTextByLines [] = [] ∧
    wordX ⟨t, c, none⟩ = 0 ∧ wordY ⟨t, c, none⟩ = 0 ∧
    wordX ⟨t, c, some []⟩ = 0 ∧ wordY ⟨t, c, some []⟩ = 0 ∧
    wordX ⟨t, c, some [⟨none, none⟩]⟩ = 0 ∧
    wordY ⟨t, c, some [⟨none, none⟩]⟩ = 0 ∧
    wordMaxX ⟨t, c, some [⟨some 7, some 9⟩]⟩ = 7 ∧
    wordMaxY ⟨t, c, some [⟨some 7, some 9⟩]⟩ = 9 ∧
    organizeTextByLines [⟨t, c, none⟩]
        = [⟨1, t, 1, [⟨t, c, ⟨0, 0⟩⟩], ⟨0, 0, 0, 0⟩⟩] ∧
    (∀ d bb, (annToWord ⟨d, none, bb⟩).confidence = some 0) :=
  ⟨rfl, rfl, rfl, rfl, rfl, rfl, rfl, rfl, rfl, rfl, rfl, fun _ _ => rfl⟩

/-- C8: the `lineNumber` values of the output lines are exactly
`1, 2, ..., n` in output order. -/
theorem organizeTextByLines_lineNumbers (l : List Word) :
    (organizeTextByLines l).map Line.lineNumber =
      List.range' 1 (organizeTextByLines l).length := by
  rw [organizeTextByLines_eq_map, List.map_map, List.length_map]
  have hcomp : Line.lineNumber ∘ finishLine = LineAcc.lineNumber :=
    funext fun _ => rfl
  rw [hcomp]
  exact (buildLines_inv (sortByY l)).2.2.1

/-- C9: the three words A (y=10, x=50), B (y=12, x=10), C (y=60, x=5)
produce exactly two lines, line 1 with text "B A" and line 2 with
text "C". -/
theorem organizeTextByLines_example :
    (organizeTextByLines
        [⟨"A", none, some [⟨some 50, some 10⟩]⟩,
         ⟨"B", none, some [⟨some 10, some 12⟩]⟩,
         ⟨"C", none, some [⟨some 5, some 60⟩]⟩]).map
        (fun li => (li.lineNumber, li.text)) = [(1, "B A"), (2, "C")] := by decide

/-- C10: `organizeTextByLines` leaves the caller's array unchanged (it
sorts only the `slice()` copy and never mutates a word object), and the
`details` list of `detectText`'s success result is the normalized
annotations in provider order, independent of the line reconstruction. -/
theorem organizeTextByLines_no_mutation (l : List Word) (a : Annotation)
    (rest : List Annotation) :
    (organizeTextByLinesFr l).2 = l ∧
    (organizeTextByLinesFr l).1 = organizeTextByLines l ∧
    (detectTextCore (some (a :: rest))).details = rest.map annToWord ∧
    (detectTextCore (some (a :: rest))).lines =
      some (organizeTextByLines (rest.map annToWord)) :=
  ⟨rfl, rfl, rfl, rfl⟩

theorem flatten_sortByX_perm (accs : List LineAcc) :
    ((accs.map fun a => sortByX a.words).flatten).Perm
      ((accs.map LineAcc.words).flatten) := by
  induction accs with
  | nil => simp
  | cons a t ih =>
    simp only [List.map_cons, List.flatten_cons]
    exact (sortByX_perm a.words).append ih

/-- C2: for a non-empty input, the output lines' word lists together are a
permutation of the input words (each input word appears exactly once across
all lines, projected to the output word shape, and the lines contain
nothing else). -/
theorem organizeTextByLines_partition (l : List Word) (_h : l ≠ []) :
    (((organizeTextByLines l).map Line.words).flatten).Perm
      (l.map outWordOf) := by
  rw [organizeTextByLines_eq_map, List.map_map]
  have hcomp : Line.words ∘ finishLine
      = fun acc => (sortByX acc.words).map outWordOf := funext fun _ => rfl
  rw [hcomp]
  have h1 : (List.map (fun acc => (sortByX acc.words).map outWordOf)
        (buildLines (sortByY l))).flatten
      = (((buildLines (sortByY l)).map fun acc => sortByX acc.words).flatten).map
          outWordOf := by
    rw [List.map_flatten, List.map_map]
    rfl
  rw [h1]
  refine List.Perm.map outWordOf ?_
  have h2 : ((buildLines (sortByY l)).map LineAcc.words).flatten = sortByY l :=
    (buildLines_inv (sortByY l)).2.2.2
  refine (flatten_sortByX_perm _).trans ?_
  rw [h2]
  exact sortByY_perm l

/-- Witness for C2 at a concrete one-word input. -/
theorem organizeTextByLines_partition_witness :
    (((organizeTextByLines [⟨"A", none, none⟩]).map Line.words).flatten).Perm
      ([⟨"A", none, none⟩].map outWordOf) :=
  organizeTextByLines_partition [⟨"A", none, none⟩] (by decide)

/-- C3: within every output line the words are ordered with non-decreasing
top-left x, and the line's `text` is the member words' texts joined by
single spaces in exactly that order. -/
theorem organizeTextByLines_line_text (l : List Word) (line : Line)
    (h : line ∈ organizeTextByLines l) :
    line.words.Pairwise (fun a b => a.position.x ≤ b.position.x) ∧
    line.text = String.intercalate " " (line.words.map OutWord.text) := by
  rw [organizeTextByLines_eq_map] at h
  obtain ⟨acc, hacc, rfl⟩ := List.mem_map.1 h
  constructor
  · show ((sortByX acc.words).map outWordOf).Pairwise
      fun a b => a.position.x ≤ b.position.x
    rw [List.pairwise_map]
    exact sortByX_sorted acc.words
  · show String.intercalate " " ((sortByX acc.words).map Word.text)
        = String.intercalate " "
            (((sortByX acc.words).map outWordOf).map OutWord.text)
    rw [List.map_map]
    have hcomp : OutWord.text ∘ outWordOf = Word.text := funext fun _ => rfl
    rw [hcomp]

/-- Witness for C3 at a concrete one-word input and its unique output
line. -/
theorem organizeTextByLines_line_text_witness :
    (⟨1, "A", 1, [⟨"A", none, ⟨2, 3⟩⟩], ⟨2, 2, 3, 3⟩⟩ : Line).words.Pairwise
        (fun a b => a.position.x ≤ b.position.x) ∧
    (⟨1, "A", 1, [⟨"A", none, ⟨2, 3⟩⟩], ⟨2, 2, 3, 3⟩⟩ : Line).text
      = String.intercalate " "
          ((⟨1, "A", 1, [⟨"A", none, ⟨2, 3⟩⟩], ⟨2, 2, 3, 3⟩⟩ : Line).words.map
            OutWord.text) :=
  organizeTextByLines_line_text [⟨"A", none, some [⟨some 2, some 3⟩]⟩]
    ⟨1, "A", 1, [⟨"A", none, ⟨2, 3⟩⟩], ⟨2, 2, 3, 3⟩⟩ (by decide)

/-- C4 counterexample: a single word with the full four-corner box
(0,0)-(100,50) produces a line whose bounding box is collapsed to the
top-left corner (all values from (0,0)), while the coordinate-wise min/max
over the word's corners claimed by the spec is (0, 100, 0, 50) — the
opening word's opposite corner is ignored. -/
theorem organizeTextByLines_bbox_counterexample :
    (organizeTextByLines
        [⟨"W", none, some [⟨some 0, some 0⟩, ⟨some 100, some 0⟩,
            ⟨some 100, some 50⟩, ⟨some 0, some 50⟩]⟩]).map Line.boundingBox
      = [⟨0, 0, 0, 0⟩] ∧
    specLineBBox
        ⟨"W", none, some [⟨some 0, some 0⟩, ⟨some 100, some 0⟩,
            ⟨some 100, some 50⟩, ⟨some 0, some 50⟩]⟩ [] = ⟨0, 100, 0, 50⟩ ∧
    (⟨0, 0, 0, 0⟩ : LineBBox) ≠ ⟨0, 100, 0, 50⟩ := by decide

/-- C4 amended: every output line's bounding box is `codeLineBBox` of its
member words in grouping order: minima are taken over all member words'
top-left coordinates, while the maxima start from the OPENING word's
top-left corner and incorporate the opposite corners (top-right x,
bottom-right y, where available) of the later words only. -/
theorem organizeTextByLines_bbox (l : List Word) (acc : LineAcc)
    (h : acc ∈ buildLines (sortByY l)) :
    organizeTextByLines l = (buildLines (sortByY l)).map finishLine ∧
    ∃ w ws, acc.words = w :: ws ∧
      (finishLine acc).boundingBox = codeLineBBox w ws := by
  refine ⟨organizeTextByLines_eq_map l, ?_⟩
  obtain ⟨w, ws, h1, _, h3, _⟩ := (buildLines_inv (sortByY l)).1 acc h
  exact ⟨w, ws, h1, h3⟩

/-- Witness for C4's amended theorem at a concrete one-word input. -/
theorem organizeTextByLines_bbox_witness :
    organizeTextByLines [⟨"P", none, some [⟨some 4, some 6⟩]⟩]
        = (buildLines (sortByY [⟨"P", none, some [⟨some 4, some 6⟩]⟩])).map
            finishLine ∧
    ∃ w ws,
      (⟨1, 6, [⟨"P", none, some [⟨some 4, some 6⟩]⟩], "P", ⟨4, 4, 6, 6⟩⟩
          : LineAcc).words = w :: ws ∧
      (finishLine ⟨1, 6, [⟨"P", none, some [⟨some 4, some 6⟩]⟩], "P",
          ⟨4, 4, 6, 6⟩⟩).boundingBox = codeLineBBox w ws :=
  organizeTextByLines_bbox [⟨"P", none, some [⟨some 4, some 6⟩]⟩]
    ⟨1, 6, [⟨"P", none, some [⟨some 4, some 6⟩]⟩], "P", ⟨4, 4, 6, 6⟩⟩
    (by decide)

/-- C7 counterexample: output is NOT permutation-independent when words
share a top-left y.  Two coincident words "A","B" at (0,0) produce line
text "A B" from one input order and "B A" from the other; and two words
with equal y but different boxes produce different line bounding boxes
depending on which one opens the line. -/
theorem organizeTextByLines_perm_counterexample :
    ([⟨"A", none, some [⟨some 0, some 0⟩]⟩,
      ⟨"B", none, some [⟨some 0, some 0⟩]⟩] : List Word).Perm
      [⟨"B", none, some [⟨some 0, some 0⟩]⟩,
       ⟨"A", none, some [⟨some 0, some 0⟩]⟩] ∧
    organizeTextByLines
        [⟨"A", none, some [⟨some 0, some 0⟩]⟩,
         ⟨"B", none, some [⟨some 0, some 0⟩]⟩]
      ≠ organizeTextByLines
        [⟨"B", none, some [⟨some 0, some 0⟩]⟩,
         ⟨"A", none, some [⟨some 0, some 0⟩]⟩] ∧
    ([⟨"C", none, some [⟨some 0, some 0⟩, ⟨some 100, some 0⟩,
        ⟨some 100, some 10⟩]⟩,
      ⟨"D", none, some [⟨some 200, some 0⟩, ⟨some 300, some 0⟩,
        ⟨some 300, some 10⟩]⟩] : List Word).Perm
      [⟨"D", none, some [⟨some 200, some 0⟩, ⟨some 300, some 0⟩,
          ⟨some 300, some 10⟩]⟩,
       ⟨"C", none, some [⟨some 0, some 0⟩, ⟨some 100, some 0⟩,
          ⟨some 100, some 10⟩]⟩] ∧
    organizeTextByLines
        [⟨"C", none, some [⟨some 0, some 0⟩, ⟨some 100, some 0⟩,
            ⟨some 100, some 10⟩]⟩,
         ⟨"D", none, some [⟨some 200, some 0⟩, ⟨some 300, some 0⟩,
            ⟨some 300, some 10⟩]⟩]
      ≠ organizeTextByLines
        [⟨"D", none, some [⟨some 200, some 0⟩, ⟨some 300, some 0⟩,
            ⟨some 300, some 10⟩]⟩,
         ⟨"C", none, some [⟨some 0, some 0⟩, ⟨some 100, some 0⟩,
            ⟨some 100, some 10⟩]⟩] := by decide

/-- C7 amended: the output is independent of the input order provided no
two words share the same top-left y (ties in y are resolved by the stable
sort from input order and can change word order, texts and line bounding
boxes). -/
theorem organizeTextByLines_perm_invariant (l₁ l₂ : List Word)
    (hp : l₁.Perm l₂) (hy : l₁.Pairwise fun a b => wordY a ≠ wordY b) :
    organizeTextByLines l₁ = organizeTextByLines l₂ := by
  have hsymm : ∀ {x y : Word}, wordY x ≠ wordY y → wordY y ≠ wordY x :=
    fun h he => h he.symm
  have p1 := sortByY_perm l₁
  have p2 := sortByY_perm l₂
  have hperm : (sortByY l₁).Perm (sortByY l₂) := p1.trans (hp.trans p2.symm)
  have hy1 : (sortByY l₁).Pairwise fun a b => wordY a ≠ wordY b :=
    (p1.pairwise_iff hsymm).mpr hy
  have hy2 : (sortByY l₂).Pairwise fun a b => wordY a ≠ wordY b :=
    (p2.pairwise_iff hsymm).mpr ((hp.pairwise_iff hsymm).mp hy)
  have s1 : (sortByY l₁).Pairwise fun a b => wordY a < wordY b :=
    (List.Pairwise.and (sortByY_sorted l₁) hy1).imp
      fun h => lt_of_le_of_ne h.1 h.2
  have s2 : (sortByY l₂).Pairwise fun a b => wordY a < wordY b :=
    (List.Pairwise.and (sortByY_sorted l₂) hy2).imp
      fun h => lt_of_le_of_ne h.1 h.2
  have hanti : IsAntisymm Word fun a b => wordY a < wordY b :=
    ⟨fun _ _ h1 h2 => absurd h2 (lt_asymm h1)⟩
  have hs : sortByY l₁ = sortByY l₂ :=
    @List.eq_of_perm_of_sorted _ _ hanti _ _ hperm s1 s2
  unfold organizeTextByLines
  rw [hs, hp.length_eq]

/-- Witness for C7's amended theorem on a concrete two-word permutation
with distinct y values. -/
theorem organizeTextByLines_perm_invariant_witness :
    organizeTextByLines
        [⟨"U", none, some [⟨some 1, some 5⟩]⟩,
         ⟨"V", none, some [⟨some 2, some 40⟩]⟩]
      = organizeTextByLines
        [⟨"V", none, some [⟨some 2, some 40⟩]⟩,
         ⟨"U", none, some [⟨some 1, some 5⟩]⟩] :=
  organizeTextByLines_perm_invariant _ _ (by decide) (by decide)

end OCR
